import Mathlib

/-!
Verification of the Stone Objective-C backend (stone/target/obj_c_types.py,
stone/target/obj_c_helpers.py).

The source is a code generator: it emits Objective-C class and serializer
text per schema struct/union.  The claims concern (a) the generator's own
pure helper functions (validator composition, default-value formatting) and
(b) the runtime behaviour of the emitted Objective-C code.  Both are given a
shallow embedding here:

* the schema model (`CTy`, `SField`, `UnionField`) mirrors the attributes
  the generator reads (`is_numeric_type`, `min_value`, `has_default`, ...);
* helper functions (`fmtCamel`, `determineValidatorType`, `fmtDefaultValue`)
  are direct transcriptions of the Python source;
* the emitted serializers, constructors and accessors are transcribed
  statement-for-statement into Lean functions over a runtime value model
  (`Value`, `Dict`, `StructVal`, `UnionVal`).  The fixed runtime support
  library (StoneSerializers / StoneValidators) is external to the
  repository (spec section 6), so the per-type serializer call emitted by
  `_fmt_serialization_call` is a parameter `sc / dc : CTy -> Value -> Value`
  of the embedded functions, exactly where the generated code calls out.

Objective-C facts used by the embedding: messaging nil returns NO/nil, an
`NS_ENUM` assigns consecutive integer values from 0 in declaration order,
`dict[key] = nil` removes the key, and reading a missing key yields nil.
-/

namespace Stone

/-! ## Runtime values

`Value` models the Objective-C values the generated guards inspect: the
`nil` pointer, the `[NSNull null]` sentinel, boxed numbers and booleans,
strings, dates, and union objects (the runtime result of a default
tag-reference expression `[[U alloc] initWithX]`, identified by class name
and tag name).  Aggregate payloads are threaded opaquely through the
external serializer callbacks and need no dedicated constructors. -/
inductive Value where
  | vnull : Value
  | vnsnull : Value
  | num (n : Int) : Value
  | boolv (b : Bool) : Value
  | str (s : String) : Value
  | date (n : Int) : Value
  | uobj (className : String) (tagName : String) : Value
deriving DecidableEq, Repr

/-- A string-keyed Objective-C dictionary (`NSMutableDictionary`), as an
association list without duplicate keys. -/
abbrev Dict := List (String × Value)

/-- `dict[key]`: a missing key reads as nil. -/
def dictGet : Dict → String → Value
  | [], _ => .vnull
  | (k', v) :: rest, k => if k' = k then v else dictGet rest k

/-- Whether the dictionary holds an entry for the key. -/
def dictHasKey : Dict → String → Bool
  | [], _ => false
  | (k', _) :: rest, k => k' = k || dictHasKey rest k

/-- `[dict removeObjectForKey:key]`. -/
def dictRemove : Dict → String → Dict
  | [], _ => []
  | (k', v) :: rest, k =>
      if k' = k then dictRemove rest k else (k', v) :: dictRemove rest k

/-- Key insertion or replacement, keeping one entry per key. -/
def dictInsert : Dict → String → Value → Dict
  | [], k, v => [(k, v)]
  | (k', v') :: rest, k, v =>
      if k' = k then (k, v) :: rest else (k', v') :: dictInsert rest k v

/-- `dict[key] = value`: subscript assignment; assigning nil removes the
key (`setObject:forKeyedSubscript:` semantics). -/
def dictSet (d : Dict) (k : String) (v : Value) : Dict :=
  if v = .vnull then dictRemove d k else dictInsert d k v

/-- Property/ivar read on a generated object whose ivars are modelled as an
association list; an ivar that was never assigned reads as nil. -/
def objGet : List (String × Value) → String → Value
  | [], _ => .vnull
  | (k', v) :: rest, k => if k' = k then v else objGet rest k

/-- `[receiver isEqualToString:@"lit"]`: true only for an equal string;
messaging a nil (or non-string) receiver returns NO. -/
def valueIsEqualToString : Value → String → Bool
  | .str s, t => s = t
  | _, _ => false

/-- Exceptions the generated serializers and accessors throw:
`_generate_throw_error('InvalidTagEnum', ...)` and the
`IllegalStateException` raised by a guarded union accessor, the latter
carrying the required tag (a literal in the emitted format string) and the
actual tag (the `[self getTagName]` format argument). -/
inductive SerErr where
  | invalidTagEnum : SerErr
  | illegalState (required actual : String) : SerErr
deriving DecidableEq, Repr

/-! ## Name casing (obj_c_helpers.py) -/

/-- Python `str.capitalize`: first character upper-cased, the rest
lower-cased. -/
def pyCapitalize (s : String) : String :=
  match s.data with
  | [] => ""
  | c :: rest => String.mk (c.toUpper :: rest.map Char.toLower)

/-- First character upper-cased, rest untouched (`ret[0].upper() + ret[1:]`). -/
def pyUpperFirst (s : String) : String :=
  match s.data with
  | [] => ""
  | c :: rest => String.mk (c.toUpper :: rest)

/-- Python `str.lower`. -/
def strLower (s : String) : String :=
  String.mk (s.data.map Char.toLower)

/-- Whether `s` starts with `p`, over the character lists. -/
def strStartsWith (s p : String) : Bool :=
  go s.data p.data
where
  go : List Char → List Char → Bool
    | _, [] => true
    | [], _ :: _ => false
    | c :: cs, d :: ds => c = d && go cs ds

/-- Splitting a schema identifier at underscores, preserving empty
segments (Python `"a_b".split("_")`). -/
def splitUnderscore : List Char → List Char → List String
  | [], cur => [String.mk cur.reverse]
  | c :: rest, cur =>
      if c = '_' then String.mk cur.reverse :: splitUnderscore rest []
      else splitUnderscore rest (c :: cur)

/-- Modelled from the spec: `split_words` lives in stone/target/helpers.py,
which is not under src/; section 9 of the spec describes the identifier
transform as a fixed word-splitting name-casing pass over schema
identifiers, which are snake_case, so the split is modelled as splitting on
underscores. -/
def splitWords (name : String) : List String :=
  splitUnderscore name.data []

/-- The `_reserved_words` table of obj_c_helpers.py. -/
def reservedWords : List String :=
  ["auto", "else", "long", "switch", "break", "enum", "register", "typedef",
   "case", "extern", "return", "union", "char", "float", "short", "unsigned",
   "const", "for", "signed", "void", "continue", "goto", "sizeof", "volatile",
   "default", "if", "static", "while", "do", "int", "struct", "_Packed",
   "double", "protocol", "interface", "implementation", "NSObject",
   "NSInteger", "NSNumber", "CGFloat", "property", "nonatomic", "retain",
   "strong", "weak", "unsafe_unretained", "readwrite", "description", "id"]

/-- The `_reserved_prefixes` table; a Python set, iterated here in literal
order (the generated names in this development avoid both entries, so the
unspecified set order is immaterial). -/
def reservedStarts : List String := ["copy", "new"]

/-- `fmt_camel` from obj_c_helpers.py: capitalize each word, lower-case the
first word unless `upperFirst`, append an underscore to reserved words, and
re-prefix identifiers starting with a reserved prefix. -/
def fmtCamel (name : String) (upperFirst : Bool := false) : String :=
  let words := (splitWords name).map pyCapitalize
  let words :=
    if !upperFirst then
      match words with
      | [] => []
      | w :: rest => strLower w :: rest
    else words
  let ret := words.foldl (fun a b => a ++ b) ""
  let ret := if reservedWords.contains (strLower ret) then ret ++ "_" else ret
  reservedStarts.foldl
    (fun r rp =>
      if strStartsWith (strLower r) rp then
        (if !upperFirst then "the" else "The") ++ pyUpperFirst r
      else r)
    ret

/-- `fmt_camel_upper`. -/
def fmtCamelUpper (name : String) : String := fmtCamel name true

/-- `fmt_class`. -/
def fmtClass (name : String) : String := fmtCamelUpper name

/-- `fmt_var`. -/
def fmtVar (name : String) : String := fmtCamel name

/-- `fmt_func_args`: first argument value is emitted bare, the rest as
`name:value`, joined by spaces. -/
def fmtFuncArgs (pairs : List (String × String)) : String :=
  match pairs with
  | [] => ""
  | (_, v) :: rest =>
      (rest.map (fun p => p.1 ++ ":" ++ p.2)).foldl (fun a b => a ++ " " ++ b) v

/-! ## Schema types

`CTy` carries exactly the attributes the generator reads off a schema type
node: the type class used by the `is_*_type` predicates, the constraint
attributes (`min_value`, `pattern`, `min_items`, ...) and the timestamp
format.  A `nullable` wrapper never wraps another `nullable` in a valid
schema (spec section 3), and the embedding, like `unwrap_nullable`, only
ever strips one layer. -/
inductive CTy where
  | boolean : CTy
  | numeric (minValue maxValue : Option Int) : CTy
  | string_ (minLength maxLength : Option Int) (pattern : Option String) : CTy
  | bytes : CTy
  | timestamp (format : String) : CTy
  | void : CTy
  | list (elem : CTy) (minItems maxItems : Option Int) : CTy
  | nullable (inner : CTy) : CTy
deriving DecidableEq, Repr

/-- `unwrap_nullable`: strips one `Nullable` layer, reporting whether the
original type was wrapped. -/
def unwrapNullable : CTy → CTy × Bool
  | .nullable inner => (inner, true)
  | t => (t, false)

/-- `is_nullable_type`-style test via `unwrap_nullable`, as the emitters
use it. -/
def isNullableTy (t : CTy) : Bool := (unwrapNullable t).2

/-- `is_void_type`. -/
def isVoidTy : CTy → Bool
  | .void => true
  | _ => false

/-- `is_numeric_type` (no nullable unwrapping; the callers that need it
unwrap first). -/
def isNumericTy : CTy → Bool
  | .numeric _ _ => true
  | _ => false

/-- `is_boolean_type`. -/
def isBooleanTy : CTy → Bool
  | .boolean => true
  | _ => false

/-! ## Validator composition (`_determine_validator_type`) -/

/-- Python truthiness of an optional integer attribute: unset and `0` are
both falsy. -/
def truthyInt : Option Int → Bool
  | none => false
  | some v => v != 0

/-- Python truthiness of an optional string attribute: unset and the empty
string are both falsy. -/
def truthyStr : Option String → Bool
  | none => false
  | some s => s != ""

/-- `'[NSNumber numberWithInt:{}]'.format(x) if x else 'nil'`: the bound
expression the validator builder embeds, under Python truthiness. -/
def nsNumberWithIntOrNil : Option Int → String
  | none => "nil"
  | some v =>
      if v != 0 then "[NSNumber numberWithInt:" ++ toString v ++ "]" else "nil"

/-- Approximation of the py2 `unicode_escape` + quote replacement applied
to a regex pattern before embedding it as a literal, covering the escape
classes that occur in schema patterns (backslash, quote, common control
characters); other characters pass through unchanged. -/
def escapeChar (c : Char) : String :=
  if c = '\\' then "\\\\"
  else if c = '\n' then "\\n"
  else if c = '\r' then "\\r"
  else if c = '\t' then "\\t"
  else if c = '\"' then "\\\""
  else String.mk [c]

/-- Pattern escaping for `_determine_validator_type`'s string branch. -/
def escapePattern (s : String) : String :=
  (s.data.map escapeChar).foldl (fun a b => a ++ b) ""

/-- The tail of `_determine_validator_type`: a built validator expression
is wrapped in `[StoneValidators ...]` and, when the original type was
nullable, additionally in the `nullableValidator` adapter; no validator
stays no validator. -/
def wrapValidator (nullable : Bool) : Option String → Option String
  | none => none
  | some v =>
      let v := "[StoneValidators " ++ v ++ "]"
      some (if nullable then "[StoneValidators nullableValidator:" ++ v ++ "]" else v)

/-- The per-class dispatch of `_determine_validator_type` after the
nullable unwrap: lists, numeric types and strings may need a validator,
everything else does not.  The list case's recursive
`_determine_validator_type(data_type.data_type, value)` call is inlined
(unwrap of the element type, recursion, wrap) so the recursion is
structural; `determineValidatorType` below packages the same unwrap/wrap
for the entry point. -/
def validatorCore : CTy → String → Option String
  | .list elem minItems maxItems, value =>
      let itemValidator :=
        (match elem with
          | .nullable inner => wrapValidator true (validatorCore inner value)
          | e => wrapValidator false (validatorCore e value)).getD "nil"
      some ("arrayValidator:" ++
        fmtFuncArgs
          [("minItems", nsNumberWithIntOrNil minItems),
           ("maxItems", nsNumberWithIntOrNil maxItems),
           ("itemValidator", itemValidator)])
  | .numeric minValue maxValue, _ =>
      if truthyInt minValue || truthyInt maxValue then
        some ("numericValidator:" ++
          fmtFuncArgs
            [("minValue", nsNumberWithIntOrNil minValue),
             ("maxValue", nsNumberWithIntOrNil maxValue)])
      else none
  | .string_ minLength maxLength pattern, _ =>
      if truthyStr pattern || truthyInt minLength || truthyInt maxLength then
        let patternLit :=
          match pattern with
          | some p => if p != "" then "@\"" ++ escapePattern p ++ "\"" else "nil"
          | none => "nil"
        some ("stringValidator:" ++
          fmtFuncArgs
            [("minLength", nsNumberWithIntOrNil minLength),
             ("maxLength", nsNumberWithIntOrNil maxLength),
             ("pattern", patternLit)])
      else none
  | _, _ => none

/-- `_determine_validator_type` from obj_c_types.py: unwraps one nullable
layer (`unwrap_nullable`), builds the core validator expression, and wraps
it.  Returns `none` when no validator is needed.  The `value` argument is
threaded as in the source (passed along to the recursive list-element
call and otherwise unused). -/
def determineValidatorType (t : CTy) (value : String) : Option String :=
  match t with
  | .nullable inner => wrapValidator true (validatorCore inner value)
  | t' => wrapValidator false (validatorCore t' value)

/-! ## Default values (`fmt_default_value`, obj_c_helpers.py) -/

/-- The default value attached to a schema field: either a reference to a
union tag or a base-type literal. -/
inductive DefaultLit where
  | tagRef (unionName tagName : String) : DefaultLit
  | intLit (n : Int) : DefaultLit
  | boolLit (b : Bool) : DefaultLit
  | strLit (s : String) : DefaultLit
deriving DecidableEq, Repr

/-- `is_tag_ref`. -/
def isTagRefLit : DefaultLit → Bool
  | .tagRef _ _ => true
  | _ => false

/-- Python `'{}'.format(default)` on a default literal. -/
def litFormat : DefaultLit → String
  | .tagRef u t => u ++ "." ++ t
  | .intLit n => toString n
  | .boolLit b => if b then "True" else "False"
  | .strLit s => s

/-- Python truthiness of a default literal (`if field.default:`). -/
def litTruthy : DefaultLit → Bool
  | .tagRef _ _ => true
  | .intLit n => n != 0
  | .boolLit b => b
  | .strLit s => s != ""

/-- Failure raised by generator helpers (`raise TypeError(...)`). -/
inductive GenError where
  | typeError : GenError
deriving DecidableEq, Repr

/-- `fmt_default_value`: a tag-reference default becomes a union
constructor call; otherwise a numeric field default becomes a boxed int
and a boolean field default a boxed bool; every other combination raises
`TypeError`.  The field's declared type is inspected without unwrapping
nullability, exactly as in the source. -/
def fmtDefaultValue (fieldTy : CTy) (default : DefaultLit) : Except GenError String :=
  match default with
  | .tagRef unionName tagName =>
      .ok ("[[" ++ fmtClass unionName ++ " alloc] initWith" ++ fmtClass tagName ++ "]")
  | d =>
      if isNumericTy fieldTy then
        .ok ("[NSNumber numberWithInt:" ++ litFormat d ++ "]")
      else if isBooleanTy fieldTy then
        .ok ("[NSNumber numberWithBool:" ++ (if litTruthy d then "YES" else "NO") ++ "]")
      else .error .typeError

/-- Runtime value of a materialized default expression: the union object
built by the emitted constructor call for a tag reference, and boxed
number objects for the numeric and boolean cases.  Never the nil pointer. -/
def materializeDefault : DefaultLit → Value
  | .tagRef unionName tagName => .uobj (fmtClass unionName) (fmtClass tagName)
  | .intLit n => .num n
  | .boolLit b => .boolv b
  | .strLit s => .str s

/-! ## Struct emission (`_generate_struct_cstor`, `_generate_struct_cstor_default`,
`_generate_struct_serializer`, `_generate_struct_deserializer`)

A struct field carries its schema name, type, and optional default
(`has_default` is `default.isSome`).  A constructed struct instance is its
ivar store, keyed by `fmt_var` of the field name, as the emitted
`_<var> = ...;` assignments produce.  The emitted constructors also run the
composed validators over the arguments; the validators' runtime
(StoneValidators) is external to the repository (spec section 6), so
construction is modelled by the assignment semantics. -/
structure SField where
  name : String
  ty : CTy
  default : Option DefaultLit := none
deriving DecidableEq, Repr

/-- `has_default`. -/
def SField.hasDefault (f : SField) : Bool := f.default.isSome

/-- The standard constructor's assignment of one argument to its ivar:
`_x = x != nil ? x : <materialized default>;` for a defaulted field and
`_x = x;` otherwise. -/
def structFieldAssign (f : SField) (arg : Value) : Value :=
  match f.default with
  | some d => if arg ≠ .vnull then arg else materializeDefault d
  | none => arg

/-- The standard constructor of `_generate_struct_cstor`, over the
flattened `all_fields` with arguments in declaration order.  In the
emitted code the defaulted-field substitution runs where each field is
owned (own fields directly, inherited fields inside the forwarded
`[super init...]` call); flattened onto `all_fields` every defaulted field
receives the same substitution. -/
def structCstor (fields : List SField) (args : List Value) : List (String × Value) :=
  (fields.zip args).map fun fa => (fmtVar fa.1.name, structFieldAssign fa.1 fa.2)

/-- `_struct_has_defaults`: the list of defaulted fields, used for its
truthiness. -/
def structHasDefaults (fields : List SField) : Bool :=
  !(fields.filter (fun f => f.hasDefault)).isEmpty

/-- Whether `_generate_struct_cstor_default` emits a convenience
constructor at all (it returns early when `_struct_has_defaults` is
falsy). -/
def cstorDefaultEmitted (fields : List SField) : Bool :=
  structHasDefaults fields

/-- The convenience constructor's parameter list:
`[f for f in all_fields if not f.has_default]`. -/
def cstorDefaultParams (fields : List SField) : List SField :=
  fields.filter (fun f => !f.hasDefault)

/-- The argument vector the convenience constructor forwards to the
standard constructor: the caller's value for each field without a default
and the `nil` sentinel for each defaulted field
(`fmt_var(f.name) if not f.has_default else 'nil'`). -/
def expandDefaultArgs : List SField → List Value → List Value
  | [], _ => []
  | f :: rest, args =>
      match f.default with
      | some _ => Value.vnull :: expandDefaultArgs rest args
      | none =>
          match args with
          | a :: args' => a :: expandDefaultArgs rest args'
          | [] => []

/-- The convenience constructor of `_generate_struct_cstor_default`:
forwards to the standard constructor with nil for every defaulted field. -/
def structCstorDefault (fields : List SField) (args : List Value) : List (String × Value) :=
  structCstor fields (expandDefaultArgs fields args)

/-- The argument vector naming each defaulted field's materialized default
explicitly, with the caller's values elsewhere — the right-hand side of
the spec's defaulted-convenience-constructor property. -/
def explicitDefaultArgs : List SField → List Value → List Value
  | [], _ => []
  | f :: rest, args =>
      match f.default with
      | some d => materializeDefault d :: explicitDefaultArgs rest args
      | none =>
          match args with
          | a :: args' => a :: explicitDefaultArgs rest args'
          | [] => []

/-- The per-field body of the emitted struct `serialize` loop
(`_generate_struct_serializer`, lines over `all_fields`): a non-nullable
field is written unconditionally, a nullable field only under the
`if (valueObj.x != nil)` presence guard.  `sc` is the external
serialization call built by `_fmt_serialization_call`. -/
def structSerializeGo (sc : CTy → Value → Value) (store : List (String × Value)) :
    List SField → Dict → Dict
  | [], d => d
  | f :: rest, d =>
      let inputValue := objGet store (fmtVar f.name)
      let serializeCall := sc f.ty inputValue
      let d :=
        if !isNullableTy f.ty then dictSet d f.name serializeCall
        else if inputValue ≠ .vnull then dictSet d f.name serializeCall else d
      structSerializeGo sc store rest d

/-- The emitted `serialize` of a struct without enumerated subtypes:
a fresh mutable dictionary filled by the field loop. -/
def structSerialize (fields : List SField) (sc : CTy → Value → Value)
    (store : List (String × Value)) : Dict :=
  structSerializeGo sc store fields []

/-- The per-field value resolution of the emitted struct `deserialize`
(non-polymorphic branch of `_generate_struct_deserializer`): read
`valueDict[@"name"]`, apply the external deserialization call, guarding a
nullable field with `valueDict[...] != nil ? ... : nil`. -/
def structDeserializeArgs (fields : List SField) (dc : CTy → Value → Value)
    (valueDict : Dict) : List Value :=
  fields.map fun f =>
    let inputValue := dictGet valueDict f.name
    if isNullableTy f.ty then
      if inputValue ≠ .vnull then dc f.ty inputValue else .vnull
    else dc f.ty inputValue

/-- The emitted `deserialize` of a struct without enumerated subtypes:
resolve every field then invoke the standard constructor. -/
def structDeserialize (fields : List SField) (dc : CTy → Value → Value)
    (valueDict : Dict) : List (String × Value) :=
  structCstor fields (structDeserializeArgs fields dc valueDict)

/-! ## Polymorphic (enumerated-subtype) structs -/

/-- A runtime struct instance for the polymorphic dispatch: its concrete
Objective-C class name and its ivar store. -/
structure StructVal where
  className : String
  store : List (String × Value)
deriving DecidableEq, Repr

/-- `for (NSString* key in subTypeFields) jsonDict[key] = subTypeFields[key];` -/
def mergeSubtypeFields (d sub : Dict) : Dict :=
  sub.foldl (fun acc kv => dictSet acc kv.1 kv.2) d

/-- The tag-dispatch suffix the struct serializer emits when the struct
has enumerated subtypes, one branch per `(tag, subtype)` pair in
declaration order.  As emitted, every branch tests
`[valueObj class] == [<fmt_class(struct.name)> class]` — the ROOT class,
not the subtype (the `subtype` loop variable is unused) — and on success
recursively invokes the root's own serializer (`selfSer`), merges the
result flat, and writes `jsonDict[@".tag"]` with `fmt_var(tag)`. -/
def structSerializePolyBranches (structName : String)
    (selfSer : StructVal → Option Dict) (v : StructVal) :
    List (String × String) → Dict → Option Dict
  | [], d => some d
  | (tag, _subtypeName) :: rest, d =>
      if v.className = fmtClass structName then
        match selfSer v with
        | none => none
        | some sub =>
            structSerializePolyBranches structName selfSer v rest
              (dictSet (mergeSubtypeFields d sub) ".tag" (.str (fmtVar tag)))
      else structSerializePolyBranches structName selfSer v rest d

/-- The emitted `serialize` of a struct that roots an enumerated-subtype
hierarchy: the own-field loop followed by the tag-dispatch branches.  The
branch's serializer call is a self-call, so the embedding carries fuel;
`none` models the non-terminating recursion. -/
def structSerializePoly (structName : String) (fields : List SField)
    (subtypes : List (String × String)) (sc : CTy → Value → Value) :
    Nat → StructVal → Option Dict
  | 0, _ => none
  | fuel + 1, v =>
      structSerializePolyBranches structName
        (structSerializePoly structName fields subtypes sc fuel) v subtypes
        (structSerialize fields sc v.store)

/-- The branch sequence of the polymorphic `deserialize`: compare
`valueDict[@"tag"]` — note the key has no leading dot, while every emitted
serializer writes `@".tag"` — against `fmt_var(tag)` for each declared
subtype in order, delegating on the first match to that subtype's
deserializer (`subDeser`, keyed by `fmt_class(subtype.name)`); fall
through to the InvalidTagEnum throw. -/
def structDeserializePolyGo (subDeser : String → Dict → Except SerErr StructVal)
    (valueDict : Dict) : List (String × String) → Except SerErr StructVal
  | [] => .error .invalidTagEnum
  | (tag, subtypeName) :: rest =>
      if valueIsEqualToString (dictGet valueDict "tag") (fmtVar tag) then
        subDeser (fmtClass subtypeName) valueDict
      else structDeserializePolyGo subDeser valueDict rest

/-- The emitted `deserialize` of a polymorphic struct
(`_generate_struct_deserializer`, subtype branch). -/
def structDeserializePoly (subtypes : List (String × String))
    (subDeser : String → Dict → Except SerErr StructVal)
    (valueDict : Dict) : Except SerErr StructVal :=
  structDeserializePolyGo subDeser valueDict subtypes

/-! ## Union emission (`_generate_union_cstor_funcs`,
`_generate_union_tag_state_funcs`, `_generate_union_tag_vars_funcs`,
`_generate_union_serializer`, `_generate_union_deserializer`)

A union variant is one field.  The emitted header declares
`typedef NS_ENUM(NSInteger, <U>Tag)` with one case per variant in
declaration order, so the runtime enum value of variant `i` is the integer
`i`; every emitted comparison `_tag == (<U>Tag)<X>_<U>` is therefore an
index comparison.  A constructed union instance is its stored tag plus the
backing ivars that the invoked constructor assigned (an ivar that was
never assigned reads as nil). -/
structure UnionField where
  name : String
  ty : CTy
deriving DecidableEq, Repr

/-- A runtime union instance: stored tag enum value and backing ivars. -/
structure UnionVal where
  tag : Nat
  store : List (String × Value)
deriving DecidableEq, Repr

/-- The string the generator interpolates for a variant's enum value,
`'({}Tag){}_{}'` over the already-`fmt_class`-formatted union name and
`fmt_camel_upper` of the variant name (as in `enum_type` /
`enum_field_name` of the emitters). -/
def enumFullValue (unionName : String) (fieldName : String) : String :=
  "(" ++ unionName ++ "Tag)" ++ fmtCamelUpper fieldName ++ "_" ++ unionName

/-- The per-variant constructor of `_generate_union_cstor_funcs`:
`_tag = (<U>Tag)<X>_<U>;` and, for a non-void variant, `_x = x;`.  `i` is
the variant's declaration index (its enum value). -/
def unionCstor (fields : List UnionField) (i : Nat) (arg : Value) : UnionVal :=
  match fields[i]? with
  | some f => ⟨i, if isVoidTy f.ty then [] else [(fmtVar f.name, arg)]⟩
  | none => ⟨i, []⟩

/-- The `is<X>` tag-state predicate: `return _tag == (<U>Tag)<X>_<U>;`. -/
def unionIs (u : UnionVal) (i : Nat) : Bool :=
  u.tag = i

/-- The `if (_tag == ...) return @"...";` cascade of the emitted
`getTagName`, carried with the running declaration index; falling off the
cascade reaches the unconditional InvalidTagEnum throw.  Each branch
returns the literal interpolation of `enum_full_value` — the cast enum
expression string — not the variant's bare name. -/
def getTagNameGo (tag : Nat) (unionName : String) :
    List UnionField → Nat → Except SerErr String
  | [], _ => .error .invalidTagEnum
  | f :: rest, i =>
      if tag = i then .ok (enumFullValue unionName f.name)
      else getTagNameGo tag unionName rest (i + 1)

/-- The emitted `getTagName` of `_generate_union_tag_state_funcs`. -/
def getTagName (unionName : String) (fields : List UnionField) (u : UnionVal) :
    Except SerErr String :=
  getTagNameGo u.tag unionName fields 0

/-- The guarded data accessor of `_generate_union_tag_vars_funcs`,
emitted for the non-void variant `f` at declaration index `i`: when the
stored tag differs, raise `IllegalStateException` whose message embeds the
required enum value literally and the actual tag via `[self getTagName]`
(whose own InvalidTagEnum throw propagates first if the stored tag is
outside the enumeration); otherwise return the backing ivar. -/
def unionTagVarAccessor (unionName : String) (fields : List UnionField)
    (f : UnionField) (i : Nat) (u : UnionVal) : Except SerErr Value :=
  if u.tag ≠ i then
    (getTagName unionName fields u).bind fun actual =>
      .error (.illegalState (enumFullValue unionName f.name) actual)
  else .ok (objGet u.store (fmtVar f.name))

/-- The branch sequence of the emitted union `serialize`
(`_generate_union_serializer`): one `if ([valueObj is<X>])` block per
variant in declaration order.  A matching block writes the non-void
payload — unconditionally when the unwrapped type is non-nullable,
otherwise under the `![valueObj.x isEqual:[NSNull null]]` guard — and then
`jsonDict[@".tag"] = @"<name>";` with the raw schema variant name.  No
block returns: control always falls through to the next branch and,
after the last, to the throw in `unionSerialize`. -/
def unionSerializeGo (sc : CTy → Value → Value) (u : UnionVal) :
    List UnionField → Nat → Dict → Dict
  | [], _, d => d
  | f :: rest, i, d =>
      let d :=
        if unionIs u i then
          let dataTypeNullable := unwrapNullable f.ty
          let inputValue := objGet u.store (fmtVar f.name)
          let serializeCall := sc f.ty inputValue
          let d :=
            if !isVoidTy dataTypeNullable.1 then
              if !dataTypeNullable.2 then dictSet d f.name serializeCall
              else if !(inputValue = .vnsnull) then dictSet d f.name serializeCall
              else d
            else d
          dictSet d ".tag" (.str f.name)
        else d
      unionSerializeGo sc u rest (i + 1) d

/-- The emitted union `serialize`: after the branch cascade the generator
emits an unconditional `@throw` (`_generate_throw_error('InvalidTagEnum',
...)`), so the trailing `return jsonDict;` is unreachable and every call
raises. -/
def unionSerialize (unionName : String) (fields : List UnionField)
    (sc : CTy → Value → Value) (u : UnionVal) : Except SerErr Dict :=
  let jsonDict := unionSerializeGo sc u fields 0 []
  have _ := jsonDict
  Except.error .invalidTagEnum

/-- The branch sequence of the emitted union `deserialize`
(`_generate_union_deserializer`): the tag read once from
`valueDict[@"tag"]` (no leading dot, though `serialize` writes `@".tag"`)
is compared with each variant's raw schema name in declaration order; a
match resolves the non-void payload (with the nullable guard) and returns
the variant constructor applied to it. -/
def unionDeserializeGo (fields : List UnionField) (dc : CTy → Value → Value)
    (valueDict : Dict) (tagValue : Value) :
    List UnionField → Nat → Except SerErr UnionVal
  | [], _ => .error .invalidTagEnum
  | f :: rest, i =>
      if valueIsEqualToString tagValue f.name then
        if !isVoidTy f.ty then
          let inputValue := dictGet valueDict f.name
          let payload :=
            if isNullableTy f.ty then
              if inputValue ≠ .vnull then dc f.ty inputValue else .vnull
            else dc f.ty inputValue
          .ok (unionCstor fields i payload)
        else .ok (unionCstor fields i .vnull)
      else unionDeserializeGo fields dc valueDict tagValue rest (i + 1)

/-- The emitted union `deserialize`: read `NSString *tag =
valueDict[@"tag"];`, scan the variants, and throw InvalidTagEnum when no
name matches. -/
def unionDeserialize (fields : List UnionField) (dc : CTy → Value → Value)
    (valueDict : Dict) : Except SerErr UnionVal :=
  unionDeserializeGo fields dc valueDict (dictGet valueDict "tag") fields 0

/-! ## Supporting lemmas -/

theorem dictGet_dictRemove_ne (d : Dict) (k k' : String) (h : k ≠ k') :
    dictGet (dictRemove d k) k' = dictGet d k' := by
  induction d with
  | nil => rfl
  | cons e rest ih =>
    obtain ⟨ek, ev⟩ := e
    simp only [dictRemove]
    by_cases he : ek = k
    · have hne : ek ≠ k' := fun hh => h (he.symm.trans hh)
      rw [if_pos he, ih]
      simp [dictGet, hne]
    · rw [if_neg he]
      by_cases he' : ek = k'
      · simp [dictGet, he']
      · simp [dictGet, he', ih]

theorem dictGet_dictRemove_self (d : Dict) (k : String) :
    dictGet (dictRemove d k) k = .vnull := by
  induction d with
  | nil => rfl
  | cons e rest ih =>
    obtain ⟨ek, ev⟩ := e
    simp only [dictRemove]
    by_cases he : ek = k
    · rw [if_pos he]; exact ih
    · rw [if_neg he]
      simp [dictGet, he, ih]

theorem dictGet_dictInsert_ne (d : Dict) (k k' : String) (v : Value) (h : k ≠ k') :
    dictGet (dictInsert d k v) k' = dictGet d k' := by
  induction d with
  | nil => simp [dictInsert, dictGet, h]
  | cons e rest ih =>
    obtain ⟨ek, ev⟩ := e
    simp only [dictInsert]
    by_cases he : ek = k
    · rw [if_pos he]
      have hne : ek ≠ k' := fun hh => h (he.symm.trans hh)
      simp [dictGet, h, hne]
    · rw [if_neg he]
      by_cases he' : ek = k'
      · simp [dictGet, he']
      · simp [dictGet, he', ih]

theorem dictGet_dictInsert_self (d : Dict) (k : String) (v : Value) :
    dictGet (dictInsert d k v) k = v := by
  induction d with
  | nil => simp [dictInsert, dictGet]
  | cons e rest ih =>
    obtain ⟨ek, ev⟩ := e
    simp only [dictInsert]
    by_cases he : ek = k
    · rw [if_pos he]; simp [dictGet]
    · rw [if_neg he]; simp [dictGet, he, ih]

theorem dictGet_dictSet_ne (d : Dict) (k k' : String) (v : Value) (h : k ≠ k') :
    dictGet (dictSet d k v) k' = dictGet d k' := by
  unfold dictSet
  by_cases hv : v = .vnull
  · simp only [if_pos hv]; exact dictGet_dictRemove_ne d k k' h
  · simp only [if_neg hv]; exact dictGet_dictInsert_ne d k k' v h

theorem dictGet_dictSet_self (d : Dict) (k : String) (v : Value) :
    dictGet (dictSet d k v) k = v := by
  unfold dictSet
  by_cases hv : v = .vnull
  · simp only [if_pos hv]; rw [dictGet_dictRemove_self, hv]
  · simp only [if_neg hv]; exact dictGet_dictInsert_self d k v

theorem dictHasKey_dictRemove_ne (d : Dict) (k k' : String) (h : k ≠ k') :
    dictHasKey (dictRemove d k) k' = dictHasKey d k' := by
  induction d with
  | nil => rfl
  | cons e rest ih =>
    obtain ⟨ek, ev⟩ := e
    simp only [dictRemove]
    by_cases he : ek = k
    · have hne : ek ≠ k' := fun hh => h (he.symm.trans hh)
      rw [if_pos he, ih]
      simp [dictHasKey, hne]
    · rw [if_neg he]
      simp [dictHasKey, ih]

theorem dictHasKey_dictInsert_ne (d : Dict) (k k' : String) (v : Value) (h : k ≠ k') :
    dictHasKey (dictInsert d k v) k' = dictHasKey d k' := by
  induction d with
  | nil => simp [dictInsert, dictHasKey, h]
  | cons e rest ih =>
    obtain ⟨ek, ev⟩ := e
    simp only [dictInsert]
    by_cases he : ek = k
    · rw [if_pos he]
      have hne : ek ≠ k' := fun hh => h (he.symm.trans hh)
      simp [dictHasKey, h, hne, he]
    · rw [if_neg he]
      simp [dictHasKey, ih]

theorem dictHasKey_dictSet_ne (d : Dict) (k k' : String) (v : Value) (h : k ≠ k') :
    dictHasKey (dictSet d k v) k' = dictHasKey d k' := by
  unfold dictSet
  by_cases hv : v = .vnull
  · simp only [if_pos hv]; exact dictHasKey_dictRemove_ne d k k' h
  · simp only [if_neg hv]; exact dictHasKey_dictInsert_ne d k k' v h

theorem materializeDefault_ne_vnull (d : DefaultLit) : materializeDefault d ≠ .vnull := by
  cases d <;> simp [materializeDefault]

theorem getTagNameGo_ok (unionName : String) (tagv : Nat) :
    ∀ (fields : List UnionField) (i k : Nat) (g : UnionField),
      fields[k]? = some g → tagv = i + k →
      getTagNameGo tagv unionName fields i = .ok (enumFullValue unionName g.name) := by
  intro fields
  induction fields with
  | nil => intro i k g h _; simp at h
  | cons f rest ih =>
    intro i k g h htag
    cases k with
    | zero =>
      simp only [List.getElem?_cons_zero, Option.some.injEq] at h
      subst h
      simp only [Nat.add_zero] at htag
      simp [getTagNameGo, htag]
    | succ k' =>
      simp only [List.getElem?_cons_succ] at h
      have hne : tagv ≠ i := by omega
      simp only [getTagNameGo, if_neg hne]
      exact ih (i + 1) k' g h (by omega)

theorem getTagNameGo_oob (unionName : String) (tagv : Nat) :
    ∀ (fields : List UnionField) (i : Nat), i + fields.length ≤ tagv ∨ tagv < i →
      getTagNameGo tagv unionName fields i = .error .invalidTagEnum := by
  intro fields
  induction fields with
  | nil => intro i _; rfl
  | cons f rest ih =>
    intro i h
    have hne : tagv ≠ i := by
      rcases h with h | h
      · simp only [List.length_cons] at h; omega
      · omega
    simp only [getTagNameGo, if_neg hne]
    refine ih (i + 1) ?_
    rcases h with h | h
    · left; simp only [List.length_cons] at h; omega
    · right; omega

theorem getTagName_of_lookup (unionName : String) (fields : List UnionField)
    (u : UnionVal) (g : UnionField) (h : fields[u.tag]? = some g) :
    getTagName unionName fields u = .ok (enumFullValue unionName g.name) :=
  getTagNameGo_ok unionName u.tag fields 0 u.tag g h (by omega)

theorem structSerializeGo_get_untouched (sc : CTy → Value → Value)
    (store : List (String × Value)) (k : String) :
    ∀ (fields : List SField) (d : Dict), (∀ g ∈ fields, g.name ≠ k) →
      dictGet (structSerializeGo sc store fields d) k = dictGet d k := by
  intro fields
  induction fields with
  | nil => intro d _; rfl
  | cons f rest ih =>
    intro d h
    have hf : f.name ≠ k := h f (List.mem_cons_self f rest)
    have hrest : ∀ g ∈ rest, g.name ≠ k := fun g hg => h g (List.mem_cons_of_mem f hg)
    simp only [structSerializeGo]
    by_cases hn : !isNullableTy f.ty
    · rw [if_pos hn, ih _ hrest, dictGet_dictSet_ne _ _ _ _ hf]
    · rw [if_neg hn]
      by_cases hv : objGet store (fmtVar f.name) ≠ .vnull
      · rw [if_pos hv, ih _ hrest, dictGet_dictSet_ne _ _ _ _ hf]
      · rw [if_neg hv, ih _ hrest]

theorem structSerializeGo_hasKey_untouched (sc : CTy → Value → Value)
    (store : List (String × Value)) (k : String) :
    ∀ (fields : List SField) (d : Dict), (∀ g ∈ fields, g.name ≠ k) →
      dictHasKey (structSerializeGo sc store fields d) k = dictHasKey d k := by
  intro fields
  induction fields with
  | nil => intro d _; rfl
  | cons f rest ih =>
    intro d h
    have hf : f.name ≠ k := h f (List.mem_cons_self f rest)
    have hrest : ∀ g ∈ rest, g.name ≠ k := fun g hg => h g (List.mem_cons_of_mem f hg)
    simp only [structSerializeGo]
    by_cases hn : !isNullableTy f.ty
    · rw [if_pos hn, ih _ hrest, dictHasKey_dictSet_ne _ _ _ _ hf]
    · rw [if_neg hn]
      by_cases hv : objGet store (fmtVar f.name) ≠ .vnull
      · rw [if_pos hv, ih _ hrest, dictHasKey_dictSet_ne _ _ _ _ hf]
      · rw [if_neg hv, ih _ hrest]

theorem name_ne_of_nodup_cons {f g : SField} {rest : List SField}
    (hnodup : ((g :: rest).map SField.name).Nodup) (hf : f ∈ rest) :
    g.name ≠ f.name := by
  simp only [List.map_cons, List.nodup_cons] at hnodup
  intro hEq
  exact hnodup.1 (hEq ▸ List.mem_map_of_mem SField.name hf)

theorem structSerializeGo_nullable_absent (sc : CTy → Value → Value)
    (store : List (String × Value)) (f : SField)
    (hnul : isNullableTy f.ty = true) (hval : objGet store (fmtVar f.name) = .vnull) :
    ∀ (fields : List SField) (d : Dict), f ∈ fields →
      (fields.map SField.name).Nodup →
      dictHasKey (structSerializeGo sc store fields d) f.name = dictHasKey d f.name := by
  intro fields
  induction fields with
  | nil => intro d hmem; exact absurd hmem (List.not_mem_nil f)
  | cons g rest ih =>
    intro d hmem hnodup
    rcases List.mem_cons.mp hmem with hfg | hfr
    · subst hfg
      simp only [structSerializeGo, hnul, Bool.not_true, if_neg (Bool.false_ne_true),
        hval, ne_eq, not_true_eq_false, if_neg (not_not_intro rfl)]
      refine structSerializeGo_hasKey_untouched sc store f.name rest d ?_
      intro g hg
      simp only [List.map_cons, List.nodup_cons] at hnodup
      intro hEq
      exact hnodup.1 (hEq ▸ List.mem_map_of_mem SField.name hg)
    · have hne : g.name ≠ f.name := name_ne_of_nodup_cons hnodup hfr
      have hnodup' : (rest.map SField.name).Nodup := by
        simp only [List.map_cons, List.nodup_cons] at hnodup
        exact hnodup.2
      simp only [structSerializeGo]
      by_cases hn : !isNullableTy g.ty
      · rw [if_pos hn, ih _ hfr hnodup', dictHasKey_dictSet_ne _ _ _ _ hne]
      · rw [if_neg hn]
        by_cases hv : objGet store (fmtVar g.name) ≠ .vnull
        · rw [if_pos hv, ih _ hfr hnodup', dictHasKey_dictSet_ne _ _ _ _ hne]
        · rw [if_neg hv, ih _ hfr hnodup']

theorem structSerializeGo_nullable_present (sc : CTy → Value → Value)
    (store : List (String × Value)) (f : SField)
    (hnul : isNullableTy f.ty = true) (hval : objGet store (fmtVar f.name) ≠ .vnull) :
    ∀ (fields : List SField) (d : Dict), f ∈ fields →
      (fields.map SField.name).Nodup →
      dictGet (structSerializeGo sc store fields d) f.name
        = sc f.ty (objGet store (fmtVar f.name)) := by
  intro fields
  induction fields with
  | nil => intro d hmem; exact absurd hmem (List.not_mem_nil f)
  | cons g rest ih =>
    intro d hmem hnodup
    rcases List.mem_cons.mp hmem with hfg | hfr
    · subst hfg
      simp only [structSerializeGo, hnul, Bool.not_true, if_neg (Bool.false_ne_true),
        if_pos hval]
      rw [structSerializeGo_get_untouched sc store f.name rest _ ?_,
        dictGet_dictSet_self]
      intro g hg
      simp only [List.map_cons, List.nodup_cons] at hnodup
      intro hEq
      exact hnodup.1 (hEq ▸ List.mem_map_of_mem SField.name hg)
    · have hne : g.name ≠ f.name := name_ne_of_nodup_cons hnodup hfr
      have hnodup' : (rest.map SField.name).Nodup := by
        simp only [List.map_cons, List.nodup_cons] at hnodup
        exact hnodup.2
      simp only [structSerializeGo]
      by_cases hn : !isNullableTy g.ty
      · rw [if_pos hn]; exact ih _ hfr hnodup'
      · rw [if_neg hn]
        by_cases hv : objGet store (fmtVar g.name) ≠ .vnull
        · rw [if_pos hv]; exact ih _ hfr hnodup'
        · rw [if_neg hv]; exact ih _ hfr hnodup'

theorem structDeserialize_cons (g : SField) (rest : List SField)
    (dc : CTy → Value → Value) (valueDict : Dict) :
    structDeserialize (g :: rest) dc valueDict
      = (fmtVar g.name,
          structFieldAssign g
            (if isNullableTy g.ty then
              if dictGet valueDict g.name ≠ .vnull then dc g.ty (dictGet valueDict g.name)
              else .vnull
            else dc g.ty (dictGet valueDict g.name)))
        :: structDeserialize rest dc valueDict := by
  simp [structDeserialize, structDeserializeArgs, structCstor]

theorem fmtVar_ne_of_nodup_cons {f g : SField} {rest : List SField}
    (hnodup : ((g :: rest).map (fun x => fmtVar x.name)).Nodup) (hf : f ∈ rest) :
    fmtVar g.name ≠ fmtVar f.name := by
  simp only [List.map_cons, List.nodup_cons] at hnodup
  intro hEq
  apply hnodup.1
  rw [hEq]
  exact List.mem_map.mpr ⟨f, hf, rfl⟩

theorem structDeserialize_missing (dc : CTy → Value → Value) (valueDict : Dict)
    (f : SField) (hnul : isNullableTy f.ty = true) (hnodef : f.default = none)
    (hmiss : dictGet valueDict f.name = .vnull) :
    ∀ fields : List SField, f ∈ fields →
      ((fields.map (fun g => fmtVar g.name)).Nodup) →
      objGet (structDeserialize fields dc valueDict) (fmtVar f.name) = .vnull := by
  intro fields
  induction fields with
  | nil => intro hmem; exact absurd hmem (List.not_mem_nil f)
  | cons g rest ih =>
    intro hmem hnodup
    rw [structDeserialize_cons]
    rcases List.mem_cons.mp hmem with hfg | hfr
    · subst hfg
      simp only [objGet, if_pos rfl]
      simp [hnul, hmiss, structFieldAssign, hnodef]
    · have hfv : fmtVar g.name ≠ fmtVar f.name := fmtVar_ne_of_nodup_cons hnodup hfr
      have hnodup' : (rest.map (fun g => fmtVar g.name)).Nodup := by
        simp only [List.map_cons, List.nodup_cons] at hnodup
        exact hnodup.2
      simp only [objGet, if_neg hfv]
      exact ih hfr hnodup'

theorem structHasDefaults_eq_any (fields : List SField) :
    structHasDefaults fields = fields.any (fun f => f.hasDefault) := by
  induction fields with
  | nil => rfl
  | cons f rest ih =>
    cases h : f.hasDefault with
    | true => simp [structHasDefaults, List.filter_cons, List.any_cons, h]
    | false =>
      simp only [structHasDefaults, List.filter_cons, List.any_cons, h, Bool.false_or,
        Bool.false_eq_true, if_false]
      exact ih

theorem structCstorDefault_eq_explicit :
    ∀ (fields : List SField) (args : List Value),
      structCstor fields (expandDefaultArgs fields args)
        = structCstor fields (explicitDefaultArgs fields args) := by
  intro fields
  induction fields with
  | nil => intro args; rfl
  | cons f rest ih =>
    intro args
    cases hd : f.default with
    | some d =>
      simp only [expandDefaultArgs, explicitDefaultArgs, hd, structCstor,
        List.zip_cons_cons, List.map_cons]
      have hh : structFieldAssign f Value.vnull = structFieldAssign f (materializeDefault d) := by
        simp [structFieldAssign, hd, materializeDefault_ne_vnull d]
      rw [hh]
      have ih' := ih args
      simp only [structCstor] at ih'
      rw [ih']
    | none =>
      cases args with
      | nil => simp [expandDefaultArgs, explicitDefaultArgs, hd]
      | cons a args' =>
        simp only [expandDefaultArgs, explicitDefaultArgs, hd, structCstor,
          List.zip_cons_cons, List.map_cons]
        have ih' := ih args'
        simp only [structCstor] at ih'
        rw [ih']

theorem strAppendLit (a b c X : String) (h : a ++ b = c) : a ++ (b ++ X) = c ++ X := by
  rw [← String.append_assoc, h]

theorem stoneNumericValidatorString (s t : String) :
    "[StoneValidators " ++ ("numericValidator:" ++ fmtFuncArgs [("minValue", s), ("maxValue", t)]) ++ "]"
      = "[StoneValidators numericValidator:" ++ s ++ " maxValue:" ++ t ++ "]" := by
  show "[StoneValidators " ++ ("numericValidator:" ++ ((s ++ " ") ++ ("maxValue:" ++ t))) ++ "]"
      = "[StoneValidators numericValidator:" ++ s ++ " maxValue:" ++ t ++ "]"
  rw [strAppendLit "[StoneValidators " "numericValidator:" "[StoneValidators numericValidator:"
    ((s ++ " ") ++ ("maxValue:" ++ t)) rfl]
  refine congrArg (fun z => z ++ "]") ?_
  rw [← String.append_assoc, ← String.append_assoc, ← String.append_assoc,
    String.append_assoc ("[StoneValidators numericValidator:" ++ s) " " "maxValue:"]
  rfl

/-! ## The claims -/

/-- Claim C1: the claimed serialize/deserialize round-trip does not hold on
the code.  For the union `u { x: Void }` and the instance built by the
`x`-constructor, the generated serializer throws InvalidTagEnum
unconditionally (its branches never return and are followed by an emitted
`@throw`), and — independently — it writes the discriminator under
`@".tag"` while the deserializer reads `@"tag"`; composing the two yields
the InvalidTagEnum failure, never a value equal to the input. -/
theorem c1_union_roundtrip_broken :
    (unionSerialize (fmtClass "u") [⟨"x", CTy.void⟩] (fun _ v => v)
        (unionCstor [⟨"x", CTy.void⟩] 0 .vnull)).bind
      (unionDeserialize [⟨"x", CTy.void⟩] (fun _ v => v))
      = .error .invalidTagEnum := rfl

/-- Claim C2: the generated polymorphic-root serializer does not match the
concrete runtime subtype.  Every emitted branch compares `[valueObj class]`
against the ROOT class and invokes the root's own serializer (the
`subtype` loop variable is unused in `_generate_struct_serializer`).  For
root `r` (one field `a`, one subtype `a_sub`): serializing an instance of
the subtype's class `ASub` writes the own fields but no `.tag` entry and
no subtype fields; serializing an instance whose class IS the root's class
recurses into itself forever (no fuel suffices). -/
theorem c2_struct_subtype_serializer_matches_root :
    structSerializePoly "r" [⟨"a", CTy.string_ none none none, none⟩] [("a_sub", "a_sub")]
        (fun _ v => v) 5 ⟨"ASub", [("a", Value.str "hello")]⟩
      = some [("a", Value.str "hello")]
    ∧ dictHasKey [("a", Value.str "hello")] ".tag" = false
    ∧ fmtClass "a_sub" = "ASub"
    ∧ ∀ fuel, structSerializePoly "r" [⟨"a", CTy.string_ none none none, none⟩]
        [("a_sub", "a_sub")] (fun _ v => v) fuel
          ⟨fmtClass "r", [("a", Value.str "hello")]⟩ = none := by
  refine ⟨rfl, rfl, rfl, ?_⟩
  intro fuel
  induction fuel with
  | zero => rfl
  | succ n ih =>
    simp only [structSerializePoly, structSerializePolyBranches, ih]
    simp

/-- Claim C3: the generated union serializer does not return from its
first matching branch and does not reserve the invalid-tag failure for the
no-match case: for the union `u { x: Void }` with the `x`-constructor
instance, the `isX` predicate holds and the branch writes the `.tag`
entry, yet `serialize` still evaluates to the InvalidTagEnum failure
because the emitted `@throw` is unconditional and the final
`return jsonDict;` is unreachable. -/
theorem c3_union_serializer_always_throws :
    unionIs (unionCstor [⟨"x", CTy.void⟩] 0 .vnull) 0 = true
    ∧ unionSerializeGo (fun _ v => v) (unionCstor [⟨"x", CTy.void⟩] 0 .vnull)
        [⟨"x", CTy.void⟩] 0 [] = [(".tag", Value.str "x")]
    ∧ unionSerialize (fmtClass "u") [⟨"x", CTy.void⟩] (fun _ v => v)
        (unionCstor [⟨"x", CTy.void⟩] 0 .vnull) = .error .invalidTagEnum :=
  ⟨rfl, rfl, rfl⟩

/-- Claim C4: the generated polymorphic deserializer dispatches on the map
key `"tag"`, not on the documented discriminator key `".tag"`: with one
declared subtype `a_sub`, a map carrying `".tag" = "aSub"` (the wire shape
every emitted serializer produces) fails with InvalidTagEnum, while the
same discriminator under the undotted key `"tag"` dispatches to the
subtype's deserializer. -/
theorem c4_poly_deserializer_wrong_tag_key :
    structDeserializePoly [("a_sub", "a_sub")] (fun cn _ => .ok ⟨cn, []⟩)
        [(".tag", Value.str (fmtVar "a_sub"))] = .error .invalidTagEnum
    ∧ structDeserializePoly [("a_sub", "a_sub")] (fun cn _ => .ok ⟨cn, []⟩)
        [("tag", Value.str (fmtVar "a_sub"))] = .ok ⟨fmtClass "a_sub", []⟩ :=
  ⟨rfl, rfl⟩

/-- Claim C5, counterexample: for the union `u { x: Void }` the generated
`getTagName` on the `x`-constructor instance returns the cast-enum string
`"(UTag)X_U"` (the interpolated `enum_full_value`), which is not the
declared variant name `"X"` that the claim states. -/
theorem c5_getTagName_counterexample :
    getTagName (fmtClass "u") [⟨"x", CTy.void⟩] (unionCstor [⟨"x", CTy.void⟩] 0 .vnull)
      = .ok "(UTag)X_U"
    ∧ ("(UTag)X_U" : String) ≠ "X" :=
  ⟨rfl, by decide⟩

/-- Claim C5 (amended): for every union, `getTagName` is a total function
over the declared tag enumeration, returning for the active variant the
formatted enum-value string `"(<U>Tag)<X>_<U>"` (not the bare declared
name); a stored tag outside the enumeration hits the unconditional
InvalidTagEnum throw, the fatal internal error. -/
theorem c5_getTagName_total (unionName : String) (fields : List UnionField) (u : UnionVal) :
    (∀ g, fields[u.tag]? = some g →
        getTagName unionName fields u = .ok (enumFullValue unionName g.name))
    ∧ (fields[u.tag]? = none →
        getTagName unionName fields u = .error .invalidTagEnum) := by
  constructor
  · intro g h
    exact getTagName_of_lookup unionName fields u g h
  · intro h
    have hl : fields.length ≤ u.tag := List.getElem?_eq_none_iff.mp h
    exact getTagNameGo_oob unionName u.tag fields 0 (Or.inl (by omega))

/-- Witness for the amended C5 at a concrete union. -/
theorem c5_getTagName_total_witness :
    (([⟨"x", CTy.void⟩] : List UnionField)[(0 : Nat)]? = some ⟨"x", CTy.void⟩)
    ∧ getTagName "U" [⟨"x", CTy.void⟩] ⟨0, []⟩ = .ok (enumFullValue "U" "x") :=
  ⟨rfl, (c5_getTagName_total "U" [⟨"x", CTy.void⟩] ⟨0, []⟩).1 ⟨"x", CTy.void⟩ rfl⟩

/-- Claim C6: the guarded accessor for a non-void variant `f` at
declaration index `i` returns the backing field exactly when the stored
tag equals `i`, and otherwise raises the illegal-state error carrying the
required tag and the actual tag obtained through `getTagName` (both as
their formatted enum-value strings, the form the emitted message embeds). -/
theorem c6_guarded_accessor (unionName : String) (fields : List UnionField)
    (f g : UnionField) (i : Nat) (u : UnionVal)
    (hf : fields[i]? = some f) (hnv : isVoidTy f.ty = false)
    (hg : fields[u.tag]? = some g) :
    (u.tag = i →
      unionTagVarAccessor unionName fields f i u = .ok (objGet u.store (fmtVar f.name)))
    ∧ (u.tag ≠ i →
      unionTagVarAccessor unionName fields f i u
        = .error (.illegalState (enumFullValue unionName f.name)
            (enumFullValue unionName g.name))) := by
  constructor
  · intro h
    unfold unionTagVarAccessor
    rw [if_neg (fun hn => hn h)]
  · intro h
    unfold unionTagVarAccessor
    rw [if_pos h, getTagName_of_lookup unionName fields u g hg]
    rfl

/-- Witness for C6 at a concrete two-variant union: accessing the `x`
payload while `y` is active raises the illegal-state error naming both
tags; accessing while `x` is active returns the backing field. -/
theorem c6_guarded_accessor_witness :
    (([⟨"x", CTy.string_ none none none⟩, ⟨"y", CTy.void⟩] : List UnionField)[(0 : Nat)]?
        = some ⟨"x", CTy.string_ none none none⟩)
    ∧ isVoidTy (CTy.string_ none none none) = false
    ∧ unionTagVarAccessor "U" [⟨"x", CTy.string_ none none none⟩, ⟨"y", CTy.void⟩]
        ⟨"x", CTy.string_ none none none⟩ 0
        (unionCstor [⟨"x", CTy.string_ none none none⟩, ⟨"y", CTy.void⟩] 1 .vnull)
      = .error (.illegalState (enumFullValue "U" "x") (enumFullValue "U" "y")) :=
  ⟨rfl, rfl,
    (c6_guarded_accessor "U" [⟨"x", CTy.string_ none none none⟩, ⟨"y", CTy.void⟩]
      ⟨"x", CTy.string_ none none none⟩ ⟨"y", CTy.void⟩ 0
      (unionCstor [⟨"x", CTy.string_ none none none⟩, ⟨"y", CTy.void⟩] 1 .vnull)
      rfl rfl rfl).2 (by decide)⟩

/-- Claim C7, counterexample: a numeric type whose `min_value` is set to 0
(and `max_value` unset) builds NO validator — the source tests the bounds
with Python truthiness (`if data_type.min_value or data_type.max_value:`),
under which a set bound of 0 counts as absent, contradicting the claimed
"if and only if min_value or max_value is set" and "a bound whose value is
0 embedded as a number". -/
theorem c7_zero_bound_counterexample :
    determineValidatorType (CTy.numeric (some 0) none) "value" = none := rfl

/-- Claim C7 (amended): for a numeric type the Validator Composer builds
the range-validator expression if and only if `min_value` or `max_value`
is truthy (set and nonzero); the built expression carries both bound
slots, each truthy bound embedded as a boxed number and each unset-or-zero
bound passed as nil. -/
theorem c7_numeric_validator_truthy (minValue maxValue : Option Int) (value : String) :
    determineValidatorType (.numeric minValue maxValue) value
      = (if truthyInt minValue || truthyInt maxValue then
          some ("[StoneValidators numericValidator:" ++ nsNumberWithIntOrNil minValue
            ++ " maxValue:" ++ nsNumberWithIntOrNil maxValue ++ "]")
        else none) := by
  have hcore : validatorCore (.numeric minValue maxValue) value
      = (if truthyInt minValue || truthyInt maxValue then
          some ("numericValidator:" ++
            fmtFuncArgs
              [("minValue", nsNumberWithIntOrNil minValue),
               ("maxValue", nsNumberWithIntOrNil maxValue)])
        else none) := rfl
  by_cases h : (truthyInt minValue || truthyInt maxValue) = true
  · rw [if_pos h]
    show wrapValidator false (validatorCore (.numeric minValue maxValue) value) = _
    rw [hcore, if_pos h]
    show some ("[StoneValidators "
        ++ ("numericValidator:" ++
            fmtFuncArgs
              [("minValue", nsNumberWithIntOrNil minValue),
               ("maxValue", nsNumberWithIntOrNil maxValue)]) ++ "]") = _
    rw [stoneNumericValidatorString]
  · rw [if_neg h]
    show wrapValidator false (validatorCore (.numeric minValue maxValue) value) = none
    rw [hcore, if_neg h]
    rfl

/-- Claim C8: for a nullable struct field, the emitted serialize writes
the field's key exactly when the value is present (an absent value leaves
the key out entirely), and the emitted deserialize resolves a missing key
to the nil sentinel — and, for a field without a default, the constructed
instance then stores nil for it — rather than failing (the embedded
deserializer is total). -/
theorem c8_nullable_field_omission (fields : List SField)
    (sc dc : CTy → Value → Value) (store : List (String × Value)) (valueDict : Dict)
    (f : SField) (hmem : f ∈ fields) (hnul : isNullableTy f.ty = true) :
    ((fields.map SField.name).Nodup →
      (objGet store (fmtVar f.name) = .vnull →
        dictHasKey (structSerialize fields sc store) f.name = false)
      ∧ (objGet store (fmtVar f.name) ≠ .vnull →
        dictGet (structSerialize fields sc store) f.name
          = sc f.ty (objGet store (fmtVar f.name))))
    ∧ ((fields.map (fun g => fmtVar g.name)).Nodup → f.default = none →
        dictGet valueDict f.name = .vnull →
        objGet (structDeserialize fields dc valueDict) (fmtVar f.name) = .vnull) := by
  constructor
  · intro hnodup
    constructor
    · intro hval
      exact structSerializeGo_nullable_absent sc store f hnul hval fields [] hmem hnodup
    · intro hval
      exact structSerializeGo_nullable_present sc store f hnul hval fields [] hmem hnodup
  · intro hnodupv hnodef hmiss
    exact structDeserialize_missing dc valueDict f hnul hnodef hmiss fields hmem hnodupv

/-- Witness for C8 at a one-field struct with a nullable string field. -/
theorem c8_nullable_field_omission_witness :
    ((⟨"a", CTy.nullable (CTy.string_ none none none), none⟩ : SField)
        ∈ ([⟨"a", CTy.nullable (CTy.string_ none none none), none⟩] : List SField))
    ∧ dictHasKey
        (structSerialize [⟨"a", CTy.nullable (CTy.string_ none none none), none⟩]
          (fun _ v => v) []) "a" = false
    ∧ objGet
        (structDeserialize [⟨"a", CTy.nullable (CTy.string_ none none none), none⟩]
          (fun _ v => v) []) (fmtVar "a") = .vnull := by
  refine ⟨List.mem_singleton.mpr rfl, ?_, ?_⟩
  · exact ((c8_nullable_field_omission
      [⟨"a", CTy.nullable (CTy.string_ none none none), none⟩] (fun _ v => v) (fun _ v => v)
      [] [] ⟨"a", CTy.nullable (CTy.string_ none none none), none⟩
      (List.mem_singleton.mpr rfl) rfl).1 (List.nodup_singleton "a")).1 rfl
  · exact (c8_nullable_field_omission
      [⟨"a", CTy.nullable (CTy.string_ none none none), none⟩] (fun _ v => v) (fun _ v => v)
      [] [] ⟨"a", CTy.nullable (CTy.string_ none none none), none⟩
      (List.mem_singleton.mpr rfl) rfl).2 (List.nodup_singleton (fmtVar "a")) rfl rfl

/-- Claim C9: the convenience constructor is emitted exactly when some
field has a default, takes exactly the fields without defaults, forwards
the nil sentinel for every defaulted field, and the instance it builds
equals the standard constructor's result with every defaulted field
explicitly set to its materialized default. -/
theorem c9_convenience_cstor (fields : List SField) (args : List Value) :
    cstorDefaultEmitted fields = fields.any (fun f => f.hasDefault)
    ∧ cstorDefaultParams fields = fields.filter (fun f => !f.hasDefault)
    ∧ structCstorDefault fields args = structCstor fields (explicitDefaultArgs fields args) :=
  ⟨structHasDefaults_eq_any fields, rfl, structCstorDefault_eq_explicit fields args⟩

/-- Claim C10: `fmt_default_value` raises TypeError exactly when the
default is not a union tag reference and the field's type is neither
numeric nor boolean — in particular for a string field with a string
default — and returns a materialized-default expression in the three
supported cases. -/
theorem c10_fmt_default_value_cases (fieldTy : CTy) (default : DefaultLit) :
    (fmtDefaultValue fieldTy default = .error .typeError
      ↔ (isTagRefLit default = false ∧ isNumericTy fieldTy = false
          ∧ isBooleanTy fieldTy = false))
    ∧ fmtDefaultValue (CTy.string_ none none none) (.strLit "a") = .error .typeError := by
  refine ⟨?_, rfl⟩
  cases default with
  | tagRef u t => simp [fmtDefaultValue, isTagRefLit]
  | intLit n =>
    by_cases hn : isNumericTy fieldTy = true
    · simp [fmtDefaultValue, isTagRefLit, hn]
    · by_cases hb : isBooleanTy fieldTy = true
      · simp [fmtDefaultValue, isTagRefLit, hn, hb]
      · simp [fmtDefaultValue, isTagRefLit, hn, hb]
  | boolLit b =>
    by_cases hn : isNumericTy fieldTy = true
    · simp [fmtDefaultValue, isTagRefLit, hn]
    · by_cases hb : isBooleanTy fieldTy = true
      · simp [fmtDefaultValue, isTagRefLit, hn, hb]
      · simp [fmtDefaultValue, isTagRefLit, hn, hb]
  | strLit s =>
    by_cases hn : isNumericTy fieldTy = true
    · simp [fmtDefaultValue, isTagRefLit, hn]
    · by_cases hb : isBooleanTy fieldTy = true
      · simp [fmtDefaultValue, isTagRefLit, hn, hb]
      · simp [fmtDefaultValue, isTagRefLit, hn, hb]

end Stone
